import Mathlib

/-!
Verification development for the RAG-MCP chatbot's retrieval-and-orchestration
core. Each Python operation named by the specification is embedded as an
executable Lean definition over `List Char` / association lists, translated
directly from the source files:

* `src/tools/document_processing.py` — `PDFProcessor._chunk_text`
* `src/core/mcp_server.py` — `MCPServer.execute_tool`
* `src/core/tool_registry.py` — `ToolRegistry`
* `src/interfaces/cli.py` — `CLIInterface._process_query`
* `src/interfaces/api.py` — `RateLimiter.check`
* `src/tools/response_tools.py` — `ResponseFormatterTool._extract_section`

Machine-level caveats: Python `time.time()` floats are modelled as rationals
(only order comparisons are used), Python dicts as association lists with
Python's insertion/update/delete semantics, and the `while` loop of
`_chunk_text` as a fuel-indexed recursion where `none` means the fuel ran out.
-/

set_option maxRecDepth 10000

namespace RagMcp

/-- Python `str.isspace`-style whitespace test used by `str.strip`. -/
def pyIsSpace (c : Char) : Bool :=
  c = ' ' || c = '\t' || c = '\n' || c = '\r' || c = '\x0b' || c = '\x0c'

/-- Python `str.strip()`: drop leading and trailing whitespace. -/
def pyStrip (l : List Char) : List Char :=
  ((l.dropWhile pyIsSpace).reverse.dropWhile pyIsSpace).reverse

/-- Python `text.replace('\n', ' ')`. -/
def pyReplaceNl (l : List Char) : List Char :=
  l.map (fun c => if c = '\n' then ' ' else c)

/-- The normalization performed at the top of `_chunk_text`:
`text.replace('\n', ' ').strip()`. -/
def pyNormalize (l : List Char) : List Char :=
  pyStrip (pyReplaceNl l)

/-- Effective index of a Python slice bound: negative indices count from the
end, and everything is clamped into `[0, n]`. -/
def pyIdx (n : ℕ) (i : ℤ) : ℕ :=
  if i < 0 then ((n : ℤ) + i).toNat else min i.toNat n

/-- Python slice `l[a:b]` with `Int` bounds. -/
def pySlice (l : List Char) (a b : ℤ) : List Char :=
  (l.take (pyIdx l.length b)).drop (pyIdx l.length a)

/-- Python `str.rfind('.')`: index of the last `'.'`, `none` when absent
(Python returns `-1`). -/
def rfindDot (l : List Char) : Option ℕ :=
  match l.reverse.findIdx? (· = '.') with
  | none => none
  | some j => some (l.length - 1 - j)

namespace PDFProcessor

/-- The `while start < len(text)` loop of `PDFProcessor._chunk_text`,
translated statement by statement; `fuel` bounds the number of iterations and
`none` reports that the loop did not finish within the given fuel (the Python
loop has no such bound and can run forever). -/
def chunkAux (size overlap : ℕ) (text : List Char) : ℕ → ℤ → Option (List (List Char))
  | 0, _ => none
  | fuel+1, start =>
    if start < (text.length : ℤ) then
      match (if start + (size : ℤ) < (text.length : ℤ)
             then rfindDot (pySlice text start (start + (size : ℤ))) else none) with
      | some i =>
          (chunkAux size overlap text fuel ((start + (i : ℤ) + 1) - (overlap : ℤ))).map
            (fun rest => pyStrip ((pySlice text start (start + (size : ℤ))).take (i+1)) :: rest)
      | none =>
          (chunkAux size overlap text fuel (start + (size : ℤ) - (overlap : ℤ))).map
            (fun rest => pyStrip (pySlice text start (start + (size : ℤ))) :: rest)
    else some []

/-- `PDFProcessor._chunk_text(text)` with chunk size `size` and overlap
`overlap`: normalize, then run the chunking loop from `start = 0`. -/
def chunk_text (size overlap fuel : ℕ) (text : List Char) : Option (List (List Char)) :=
  chunkAux size overlap (pyNormalize text) fuel 0

end PDFProcessor

/-- Chunks concatenated "with the overlaps removed": keep the first chunk
whole and drop the first `overlap` characters of every later chunk. -/
def reconstructChunks (overlap : ℕ) : List (List Char) → List Char
  | [] => []
  | c :: rest => c ++ (rest.map (List.drop overlap)).flatten

/-- A reference chunker for sentence-terminator-free, whitespace-free text:
take `size` characters, advance by `size − overlap`.  Used to relate the
source loop to arithmetic window positions. -/
def simpleChunks (size overlap : ℕ) : ℕ → List Char → Option (List (List Char))
  | 0, _ => none
  | fuel+1, s =>
    if s.isEmpty then some []
    else (simpleChunks size overlap fuel (s.drop (size - overlap))).map
      (fun rest => s.take size :: rest)

namespace MCPServer

/-- A registered capability: Python distinguishes coroutine functions from
plain callables with `inspect.iscoroutinefunction`; a call can return a value
or raise (`Except.error`), which `execute_tool` re-raises unchanged. -/
inductive ToolImpl where
  | sync (f : List String → Except String String)
  | async (f : List String → List (String × String) → Except String String)

/-- Observable outcome of one `execute_tool` call: the returned/raised value,
the registered-tool mapping afterwards, and the names of the tool
implementations that were actually invoked. -/
structure ExecOutcome where
  result : Except String String
  toolsAfter : List (String × ToolImpl)
  invoked : List String

/-- `MCPServer.execute_tool(tool_name, *args, **kwargs)`.  An unregistered
name raises `ValueError(f"Tool {tool_name} not registered")` before any tool
runs; a coroutine tool is awaited with both positional and keyword arguments;
a synchronous tool is submitted to the thread pool with
`run_in_executor(self.executor, tool, *args)`, which forwards only the
positional arguments.  The `try/except` around execution logs and re-raises,
leaving the outcome unchanged. -/
def execute_tool (tools : List (String × ToolImpl)) (tool_name : String)
    (args : List String) (kwargs : List (String × String)) : ExecOutcome :=
  match tools.lookup tool_name with
  | none => ⟨.error ("Tool " ++ tool_name ++ " not registered"), tools, []⟩
  | some (.async f) => ⟨f args kwargs, tools, [tool_name]⟩
  | some (.sync f) => ⟨f args, tools, [tool_name]⟩

end MCPServer

namespace ToolRegistry

/-- `ToolCategory` enum from `tool_registry.py`. -/
inductive ToolCategory where
  | document | search | llm | utility | other
deriving DecidableEq

/-- `ToolMetadata` pydantic model. -/
structure ToolMetadata where
  name : String
  description : String
  category : ToolCategory
  async_support : Bool
  version : String
deriving DecidableEq

/-- `Tool`: the Python callable is represented by an opaque numeric handle;
only its identity matters to the registry. -/
structure Tool where
  func : ℕ
  metadata : ToolMetadata
deriving DecidableEq

/-- Python dict assignment `d[k] = v`: overwrite in place when the key
exists, append otherwise. -/
def dictInsert (k : String) (v : Tool) : List (String × Tool) → List (String × Tool)
  | [] => [(k, v)]
  | (k', v') :: t => if k' = k then (k, v) :: t else (k', v') :: dictInsert k v t

/-- Python dict deletion `del d[k]` (no-op when the key is absent; the
registry only deletes keys it has looked up). -/
def dictErase (k : String) : List (String × Tool) → List (String × Tool)
  | [] => []
  | (k', v') :: t => if k' = k then t else (k', v') :: dictErase k t

/-- Registry state: `self._tools` and the per-category dicts
`self._categories`. -/
structure Registry where
  tools : List (String × Tool)
  categories : ToolCategory → List (String × Tool)

/-- `ToolRegistry.__init__`: empty tool dict, one empty dict per category. -/
def initRegistry : Registry := ⟨[], fun _ => []⟩

/-- `ToolRegistry.register(...)` applied to a function: builds the metadata
and stores the tool under `name` in `self._tools` and in
`self._categories[category]`. -/
def register (r : Registry) (name description : String) (category : ToolCategory)
    (version : String) (func : ℕ) (isAsync : Bool) : Registry :=
  let tool : Tool := ⟨func, ⟨name, description, category, isAsync, version⟩⟩
  { tools := dictInsert name tool r.tools
    categories := fun c =>
      if c = category then dictInsert name tool (r.categories c) else r.categories c }

/-- `ToolRegistry.remove_tool(name)`: when present, delete from `self._tools`
and from the category dict named by the stored metadata, returning `True`;
otherwise return `False`. -/
def remove_tool (r : Registry) (name : String) : Bool × Registry :=
  match r.tools.lookup name with
  | some tool =>
      (true,
       { tools := dictErase name r.tools
         categories := fun c =>
           if c = tool.metadata.category then dictErase name (r.categories c)
           else r.categories c })
  | none => (false, r)

/-- `ToolRegistry.clear()`. -/
def clear (_ : Registry) : Registry := initRegistry

/-- `ToolRegistry.list_tools(category)`: name → metadata mapping, from the
category dict when a category is given, else from all tools. -/
def list_tools (r : Registry) (category : Option ToolCategory) :
    List (String × ToolMetadata) :=
  match category with
  | some c => (r.categories c).map (fun p => (p.1, p.2.metadata))
  | none => r.tools.map (fun p => (p.1, p.2.metadata))

/-- One registry operation of the kind quantified over by the uniqueness
invariant. -/
inductive RegOp where
  | register (name description : String) (category : ToolCategory)
      (version : String) (func : ℕ) (isAsync : Bool)
  | remove (name : String)
  | clear

/-- Apply one operation. -/
def applyOp (r : Registry) : RegOp → Registry
  | .register n d c v f a => register r n d c v f a
  | .remove n => (remove_tool r n).2
  | .clear => clear r

/-- Run a sequence of operations from the freshly constructed registry. -/
def applyOps (ops : List RegOp) : Registry := ops.foldl applyOp initRegistry

end ToolRegistry

namespace CLIInterface

/-- The literal apology returned by the `except` branch of
`CLIInterface._process_query`. -/
def apology_message : String :=
  "I apologize, but I\x27m having trouble processing your request. Please try again."

/-- `CLIInterface._process_query(query)`.  The three capability calls are
passed in as oracles returning either a value or a raised exception
(`Except.error`); `execute_tool` re-raises tool exceptions, so they arrive
here unchanged.  The `try` body retrieves matches, formats a context when the
match list is non-empty (`if results:`), generates a response, and returns
`(response, results, False)`; any exception is caught and turned into the
apology with an empty match list.  (Copying the LLM tool's
`conversation_history` attribute between the generation call and the return
does not affect the returned triple and is omitted.) -/
def process_query {M : Type} (query : String)
    (query_vector_store : String → Except String (List M))
    (format_response : String → List M → Except String (Option String))
    (generate_response : String → Option String → Except String String) :
    Except String (String × List M × Bool) :=
  match (do
      let results ← query_vector_store query
      let context ←
        if results.isEmpty then pure (none : Option String)
        else format_response query results
      let response ← generate_response query context
      pure (response, results, false) :
      Except String (String × List M × Bool)) with
  | .ok r => .ok r
  | .error _ => .ok (apology_message, [], false)

end CLIInterface

namespace RateLimiter

/-- `RateLimiter.check(client_id)` from `api.py`, with the clock passed
explicitly (`now = time.time()`, modelled as a rational) and the
`self.requests` dict as a total map with default `[]` (Python
`dict.get(client_id, [])`).  The window is the literal `60` from
`self.window`.  On denial the pruned list is discarded, not written back. -/
def check (rate_limit : ℕ) (requests : String → List ℚ) (client_id : String)
    (now : ℚ) : Bool × (String → List ℚ) :=
  if rate_limit ≤ ((requests client_id).filter (fun t => decide (now - t < 60))).length
  then (false, requests)
  else (true, fun c =>
    if c = client_id
    then ((requests client_id).filter (fun t => decide (now - t < 60))) ++ [now]
    else requests c)

end RateLimiter

namespace ResponseFormatterTool

/-- `ResponseFormatterTool._extract_section(text, query)`: split on `'.'`,
find the first sentence containing any lower-cased query token as a
substring (default start 0), take a window of 5 sentences, strip each, drop
the empties, join with `". "` and append `'.'`. -/
def extract_section (text query : List Char) : List Char :=
  let sentences := text.splitOn '.'
  let keywords := ((query.map Char.toLower).splitOnP pyIsSpace).filter
    (fun w => !w.isEmpty)
  let start_idx :=
    match sentences.findIdx?
        (fun s => keywords.any (fun k => decide (k <:+: s.map Char.toLower))) with
    | some i => i
    | none => 0
  let context_window := (sentences.drop start_idx).take 5
  List.intercalate ('.' :: ' ' :: [])
    ((context_window.map pyStrip).filter (fun s => !s.isEmpty)) ++ ['.']

end ResponseFormatterTool

/-- The candidate text of the spec's context-window literal case. -/
def parkingText : List Char :=
  ("Visitor parking is open from 6am to 10pm daily. Overnight parking requires a permit.").toList

/-- The query of the spec's context-window literal case. -/
def parkingQuery : List Char := ("What are visitor parking hours?").toList

/-- A concrete dispatcher registry with one synchronous and one asynchronous
tool, used to exercise `execute_tool`'s argument forwarding. -/
def demoTools : List (String × MCPServer.ToolImpl) :=
  [(("stool"), .sync (fun args => .ok (String.intercalate ("|") args))),
   (("atool"), .async (fun args kwargs =>
     .ok (String.intercalate ("|") args ++ ";" ++
          String.intercalate ("|") (kwargs.map Prod.fst))))]

/-- C1: for every query, if the vector-query capability raises, the CLI
pipeline's `_process_query` still returns normally with the non-empty apology
string and an empty match list, never propagating the exception. -/
theorem pipeline_graceful_degradation {M : Type} (query e : String)
    (qvs : String → Except String (List M))
    (fr : String → List M → Except String (Option String))
    (gen : String → Option String → Except String String)
    (h : qvs query = Except.error e) :
    CLIInterface.process_query query qvs fr gen =
      Except.ok (CLIInterface.apology_message, ([] : List M), false) ∧
    CLIInterface.apology_message ≠ "" := by
  refine ⟨?_, by decide⟩
  unfold CLIInterface.process_query
  rw [h]
  rfl

/-- Witness for C1 at a concrete failing vector-query oracle. -/
theorem pipeline_graceful_degradation_witness :
    (fun _ : String => (Except.error ("boom") : Except String (List ℕ))) ("q") =
      Except.error ("boom") ∧
    (CLIInterface.process_query (M := ℕ) ("q")
        (fun _ => Except.error ("boom"))
        (fun _ _ => Except.ok none)
        (fun _ _ => Except.ok ("r")) =
          Except.ok (CLIInterface.apology_message, ([] : List ℕ), false) ∧
      CLIInterface.apology_message ≠ "") :=
  ⟨rfl, pipeline_graceful_degradation ("q") ("boom") _ _ _ rfl⟩

/-- C2: invoking an unregistered tool name fails with the
tool-not-registered error, leaves the registered-tool mapping unchanged, and
executes no tool implementation. -/
theorem execute_tool_unregistered (tools : List (String × MCPServer.ToolImpl))
    (tool_name : String) (args : List String) (kwargs : List (String × String))
    (h : tools.lookup tool_name = none) :
    MCPServer.execute_tool tools tool_name args kwargs =
      ⟨Except.error ("Tool " ++ tool_name ++ " not registered"), tools, []⟩ := by
  unfold MCPServer.execute_tool
  rw [h]

/-- Witness for C2: the empty registry and the spec's literal
`"nonexistent_tool"`. -/
theorem execute_tool_unregistered_witness :
    ([] : List (String × MCPServer.ToolImpl)).lookup ("nonexistent_tool") = none ∧
    MCPServer.execute_tool [] ("nonexistent_tool") [] [] =
      ⟨Except.error ("Tool nonexistent_tool not registered"),
       ([] : List (String × MCPServer.ToolImpl)), []⟩ :=
  ⟨rfl, execute_tool_unregistered [] ("nonexistent_tool") [] [] rfl⟩

/-- C10: a synchronous tool receives only the positional arguments (keyword
arguments are dropped: the outcome is stated without reference to `kwargs`),
while an asynchronous tool receives both positional and keyword arguments. -/
theorem execute_tool_arg_forwarding (tools : List (String × MCPServer.ToolImpl))
    (tool_name : String) (args : List String) (kwargs : List (String × String)) :
    (∀ f, tools.lookup tool_name = some (MCPServer.ToolImpl.sync f) →
      MCPServer.execute_tool tools tool_name args kwargs =
        ⟨f args, tools, [tool_name]⟩) ∧
    (∀ g, tools.lookup tool_name = some (MCPServer.ToolImpl.async g) →
      MCPServer.execute_tool tools tool_name args kwargs =
        ⟨g args kwargs, tools, [tool_name]⟩) := by
  constructor <;> intro f h <;> unfold MCPServer.execute_tool <;> rw [h]

/-- Witness for C10 on `demoTools`: the sync tool sees only `["a", "b"]`
(the keyword pair `("k", "v")` vanishes), the async tool sees both. -/
theorem execute_tool_arg_forwarding_witness :
    MCPServer.execute_tool demoTools ("stool") [("a"), ("b")] [(("k"), ("v"))] =
      ⟨Except.ok ("a|b"), demoTools, [("stool")]⟩ ∧
    MCPServer.execute_tool demoTools ("atool") [("a"), ("b")] [(("k"), ("v"))] =
      ⟨Except.ok ("a|b;k"), demoTools, [("atool")]⟩ :=
  ⟨(execute_tool_arg_forwarding demoTools ("stool") [("a"), ("b")]
      [(("k"), ("v"))]).1 _ rfl,
   (execute_tool_arg_forwarding demoTools ("atool") [("a"), ("b")]
      [(("k"), ("v"))]).2 _ rfl⟩

/-- C8 counterexample: on the spec's literal query and candidate text,
`_extract_section` does not return just the first sentence. -/
theorem extract_section_counterexample :
    ResponseFormatterTool.extract_section parkingText parkingQuery ≠
      ("Visitor parking is open from 6am to 10pm daily.").toList := by
  decide

/-- C8 amended: `_extract_section` returns the 5-sentence window starting at
the first sentence that contains a query token, which here is both sentences,
i.e. the whole candidate text. -/
theorem extract_section_full_window :
    ResponseFormatterTool.extract_section parkingText parkingQuery =
      ("Visitor parking is open from 6am to 10pm daily. Overnight parking requires a permit.").toList := by
  decide

/-- One iteration of the chunking loop on `"a.bcdefghij"` with size 5 and
overlap 2: the window `"a.bcd"` is cut back to the period at index 1, so the
loop emits `"a."` and resets `start` to `2 − 2 = 0`, its previous value. -/
theorem chunkAux_period_loop_step (n : ℕ) :
    PDFProcessor.chunkAux 5 2 (("a.bcdefghij").toList) (n+1) 0 =
      (PDFProcessor.chunkAux 5 2 (("a.bcdefghij").toList) n 0).map
        (fun rest => (("a.").toList) :: rest) := rfl

/-- C4: the chunking loop does not terminate on `"a.bcdefghij"` with
size 5 and overlap 2 (overlap < size), although the claim bounds it by
⌈11 / 3⌉ = 4 iterations: for every iteration budget the loop is still
running (`none`). -/
theorem chunk_text_diverges_on_early_period (fuel : ℕ) :
    PDFProcessor.chunk_text 5 2 fuel (("a.bcdefghij").toList) = none := by
  show PDFProcessor.chunkAux 5 2 (("a.bcdefghij").toList) fuel 0 = none
  induction fuel with
  | zero => rfl
  | succ n ih => rw [chunkAux_period_loop_step, ih]; rfl

/-- One iteration of the chunking loop on `"abc"` with size 2 and
overlap 2: the loop emits `"ab"` and resets `start` to `2 − 2 = 0`. -/
theorem chunkAux_overlap_eq_size_step (n : ℕ) :
    PDFProcessor.chunkAux 2 2 (("abc").toList) (n+1) 0 =
      (PDFProcessor.chunkAux 2 2 (("abc").toList) n 0).map
        (fun rest => (("ab").toList) :: rest) := rfl

/-- C5: with overlap = size = 2 the code performs no validation at all —
there is no `ConfigurationError` anywhere in the source — and on `"abc"` the
loop never terminates: for every iteration budget it is still running. -/
theorem chunk_text_diverges_overlap_eq_size (fuel : ℕ) :
    PDFProcessor.chunk_text 2 2 fuel (("abc").toList) = none := by
  show PDFProcessor.chunkAux 2 2 (("abc").toList) fuel 0 = none
  induction fuel with
  | zero => rfl
  | succ n ih => rw [chunkAux_overlap_eq_size_step, ih]; rfl

/-- C6 counterexample: the empty text (length 0 < size) yields zero chunks,
and `"abcde"` with size 10 and overlap 8 (length 5 < size 10, overlap < size)
yields three chunks — not exactly one. -/
theorem chunk_single_counterexample :
    PDFProcessor.chunk_text 1000 200 1 [] = some [] ∧
    PDFProcessor.chunk_text 10 8 5 (("abcde").toList) =
      some [(("abcde").toList), (("cde").toList), (("e").toList)] := by
  exact ⟨by decide, by decide⟩

/-- C6 amended: when the normalized text is non-empty and no longer than
`size − overlap`, the first window covers all of it and the next start
pointer already reaches the end, so exactly one chunk (the stripped
normalized text) is produced. -/
theorem chunk_single_when_short (size overlap : ℕ) (text : List Char)
    (hov : overlap < size) (h0 : 0 < (pyNormalize text).length)
    (hle : (pyNormalize text).length ≤ size - overlap) :
    PDFProcessor.chunk_text size overlap 2 text =
      some [pyStrip (pyNormalize text)] := by
  have hlen : (pyNormalize text).length ≤ size := le_trans hle (Nat.sub_le _ _)
  have c1 : (0:ℤ) < ((pyNormalize text).length : ℤ) := by exact_mod_cast h0
  have c2 : ¬ ((0:ℤ) + (size:ℤ) < ((pyNormalize text).length : ℤ)) := by omega
  have c3 : ¬ ((0:ℤ) + (size:ℤ) - (overlap:ℤ) < ((pyNormalize text).length : ℤ)) := by
    omega
  have hslice : pySlice (pyNormalize text) 0 ((0:ℤ) + (size:ℤ)) = pyNormalize text := by
    unfold pySlice pyIdx
    rw [if_neg (by omega), if_neg (by omega)]
    have h1 : ((0:ℤ) + (size:ℤ)).toNat = size := by omega
    have h2 : ((0:ℤ)).toNat = 0 := rfl
    rw [h1, h2, min_eq_right hlen, Nat.min_eq_left (Nat.zero_le _), List.drop_zero,
      List.take_length]
  show PDFProcessor.chunkAux size overlap (pyNormalize text) 2 0 = _
  unfold PDFProcessor.chunkAux
  rw [if_pos c1, if_neg c2]
  show (PDFProcessor.chunkAux size overlap (pyNormalize text) 1
      ((0:ℤ) + (size:ℤ) - (overlap:ℤ))).map
      (fun rest => pyStrip (pySlice (pyNormalize text) 0 ((0:ℤ) + (size:ℤ))) :: rest) =
    some [pyStrip (pyNormalize text)]
  unfold PDFProcessor.chunkAux
  rw [if_neg c3, hslice]
  rfl

/-- Witness for the amended C6 at `"abc"`, size 5, overlap 2. -/
theorem chunk_single_when_short_witness :
    (2 < 5 ∧ 0 < (pyNormalize (("abc").toList)).length ∧
      (pyNormalize (("abc").toList)).length ≤ 5 - 2) ∧
    PDFProcessor.chunk_text 5 2 2 (("abc").toList) =
      some [pyStrip (pyNormalize (("abc").toList))] :=
  ⟨⟨by decide, by decide, by decide⟩,
   chunk_single_when_short 5 2 (("abc").toList) (by decide) (by decide) (by decide)⟩

/-- C7: with limit 2 and the 60-second window, three checks for one identity
within one second admit exactly the first two and deny the third (leaving the
recorded timestamps unchanged), and a later check made once the window has
elapsed past both admitted timestamps is admitted again. -/
theorem rate_limiter_boundary (t1 t2 t3 t4 : ℚ) (c : String)
    (h12 : t1 ≤ t2) (h23 : t2 ≤ t3) (h31 : t3 ≤ t1 + 1) (h4 : t2 + 60 ≤ t4) :
    (RateLimiter.check 2 (fun _ => []) c t1).1 = true ∧
    (RateLimiter.check 2 (RateLimiter.check 2 (fun _ => []) c t1).2 c t2).1 = true ∧
    (RateLimiter.check 2 (RateLimiter.check 2
      (RateLimiter.check 2 (fun _ => []) c t1).2 c t2).2 c t3).1 = false ∧
    (RateLimiter.check 2 (RateLimiter.check 2 (RateLimiter.check 2
      (RateLimiter.check 2 (fun _ => []) c t1).2 c t2).2 c t3).2 c t4).1 = true := by
  have a21 : t2 - t1 < 60 := by linarith
  have a31 : t3 - t1 < 60 := by linarith
  have a32 : t3 - t2 < 60 := by linarith
  have a41 : ¬ (t4 - t1 < 60) := by linarith
  have a42 : ¬ (t4 - t2 < 60) := by linarith
  have s1 : RateLimiter.check 2 (fun _ => []) c t1 =
      (true, fun c' => if c' = c then [t1] else []) := by
    simp [RateLimiter.check]
  have s2 : RateLimiter.check 2 (fun c' => if c' = c then [t1] else []) c t2 =
      (true, fun c' => if c' = c then [t1, t2] else []) := by
    simp [RateLimiter.check, a21]
    funext c'
    by_cases h : c' = c <;> simp [h]
  have s3 : RateLimiter.check 2 (fun c' => if c' = c then [t1, t2] else []) c t3 =
      (false, fun c' => if c' = c then [t1, t2] else []) := by
    simp [RateLimiter.check, a31, a32]
  have s4 : (RateLimiter.check 2 (fun c' => if c' = c then [t1, t2] else []) c t4).1 =
      true := by
    simp [RateLimiter.check, a41, a42]
  refine ⟨by rw [s1], ?_, ?_, ?_⟩
  · rw [s1]; rw [show (true, fun c' => if c' = c then [t1] else []).2 =
      (fun c' => if c' = c then [t1] else []) from rfl, s2]
  · rw [s1]; rw [show (true, fun c' => if c' = c then [t1] else []).2 =
      (fun c' => if c' = c then [t1] else []) from rfl, s2]
    rw [show (true, fun c' => if c' = c then [t1, t2] else []).2 =
      (fun c' => if c' = c then [t1, t2] else []) from rfl, s3]
  · rw [s1]; rw [show (true, fun c' => if c' = c then [t1] else []).2 =
      (fun c' => if c' = c then [t1] else []) from rfl, s2]
    rw [show (true, fun c' => if c' = c then [t1, t2] else []).2 =
      (fun c' => if c' = c then [t1, t2] else []) from rfl, s3]
    rw [show (false, fun c' => if c' = c then [t1, t2] else []).2 =
      (fun c' => if c' = c then [t1, t2] else []) from rfl, s4]

/-- Witness for C7 at times 0, 0, 1 and 61. -/
theorem rate_limiter_boundary_witness :
    ((0:ℚ) ≤ 0 ∧ (0:ℚ) ≤ 1 ∧ (1:ℚ) ≤ 0 + 1 ∧ (0:ℚ) + 60 ≤ 61) ∧
    ((RateLimiter.check 2 (fun _ => []) ("k") 0).1 = true ∧
     (RateLimiter.check 2 (RateLimiter.check 2 (fun _ => []) ("k") 0).2 ("k") 0).1 = true ∧
     (RateLimiter.check 2 (RateLimiter.check 2
       (RateLimiter.check 2 (fun _ => []) ("k") 0).2 ("k") 0).2 ("k") 1).1 = false ∧
     (RateLimiter.check 2 (RateLimiter.check 2 (RateLimiter.check 2
       (RateLimiter.check 2 (fun _ => []) ("k") 0).2 ("k") 0).2 ("k") 1).2 ("k") 61).1 = true) :=
  ⟨⟨by norm_num, by norm_num, by norm_num, by norm_num⟩,
   rate_limiter_boundary 0 0 1 61 ("k")
     (by norm_num) (by norm_num) (by norm_num) (by norm_num)⟩

namespace ToolRegistry

theorem mem_keys_dictInsert (a k : String) (v : Tool) (d : List (String × Tool)) :
    a ∈ (dictInsert k v d).map Prod.fst ↔ a = k ∨ a ∈ d.map Prod.fst := by
  induction d with
  | nil => simp [dictInsert]
  | cons p t ih =>
    obtain ⟨k', v'⟩ := p
    by_cases h : k' = k
    · subst h
      simp [dictInsert]
    · simp [dictInsert, h, ih]
      tauto

theorem nodup_keys_dictInsert (k : String) (v : Tool) (d : List (String × Tool))
    (h : (d.map Prod.fst).Nodup) : ((dictInsert k v d).map Prod.fst).Nodup := by
  induction d with
  | nil => simp [dictInsert]
  | cons p t ih =>
    obtain ⟨k', v'⟩ := p
    simp only [List.map_cons, List.nodup_cons] at h
    by_cases hk : k' = k
    · subst hk
      simpa [dictInsert] using h
    · simp only [dictInsert, if_neg hk, List.map_cons, List.nodup_cons]
      refine ⟨?_, ih h.2⟩
      rw [mem_keys_dictInsert]
      rintro (rfl | hmem)
      · exact hk rfl
      · exact h.1 hmem

theorem dictErase_sublist (k : String) (d : List (String × Tool)) :
    (dictErase k d).Sublist d := by
  induction d with
  | nil => simp [dictErase]
  | cons p t ih =>
    obtain ⟨k', v'⟩ := p
    by_cases h : k' = k
    · simp [dictErase, h]
    · simpa [dictErase, h] using List.Sublist.cons₂ (k', v') ih

theorem nodup_keys_dictErase (k : String) (d : List (String × Tool))
    (h : (d.map Prod.fst).Nodup) : ((dictErase k d).map Prod.fst).Nodup :=
  h.sublist (List.Sublist.map _ (dictErase_sublist k d))

/-- The key-uniqueness invariant: no name occurs twice in the tool dict nor
twice within one category dict. -/
def RegInv (r : Registry) : Prop :=
  (r.tools.map Prod.fst).Nodup ∧ ∀ c, ((r.categories c).map Prod.fst).Nodup

theorem regInv_init : RegInv initRegistry := by
  constructor <;> simp [initRegistry]

theorem regInv_applyOp (r : Registry) (op : RegOp) (h : RegInv r) :
    RegInv (applyOp r op) := by
  cases op with
  | register n d cat v f a =>
    refine ⟨nodup_keys_dictInsert _ _ _ h.1, fun c => ?_⟩
    show ((if c = cat then dictInsert n _ (r.categories c) else r.categories c).map
      Prod.fst).Nodup
    by_cases hc : c = cat
    · rw [if_pos hc]
      exact nodup_keys_dictInsert _ _ _ (h.2 c)
    · rw [if_neg hc]
      exact h.2 c
  | remove n =>
    show RegInv (remove_tool r n).2
    unfold remove_tool
    cases hl : r.tools.lookup n with
    | none => exact h
    | some tool =>
      refine ⟨nodup_keys_dictErase _ _ h.1, fun c => ?_⟩
      show ((if c = tool.metadata.category then dictErase n (r.categories c)
        else r.categories c).map Prod.fst).Nodup
      by_cases hc : c = tool.metadata.category
      · rw [if_pos hc]
        exact nodup_keys_dictErase _ _ (h.2 c)
      · rw [if_neg hc]
        exact h.2 c
  | clear => exact regInv_init

theorem regInv_foldl (ops : List RegOp) :
    ∀ r : Registry, RegInv r → RegInv (ops.foldl applyOp r) := by
  induction ops with
  | nil => intro r h; exact h
  | cons op t ih => intro r h; exact ih _ (regInv_applyOp r op h)

end ToolRegistry

/-- C9 amended: after any sequence of register/remove/clear operations, each
name occurs at most once in the all-tools listing and at most once within
each single per-category listing.  (Re-registering a name under a different
category leaves it listed under both categories, so at-most-once across all
per-category listings combined fails — see the counterexample.) -/
theorem registry_names_unique (ops : List ToolRegistry.RegOp) :
    ((ToolRegistry.list_tools (ToolRegistry.applyOps ops) none).map Prod.fst).Nodup ∧
    ∀ cat, ((ToolRegistry.list_tools (ToolRegistry.applyOps ops)
      (some cat)).map Prod.fst).Nodup := by
  have h := ToolRegistry.regInv_foldl ops ToolRegistry.initRegistry ToolRegistry.regInv_init
  constructor
  · have := h.1
    simpa [ToolRegistry.list_tools, ToolRegistry.applyOps, List.map_map,
      Function.comp] using this
  · intro cat
    have := h.2 cat
    simpa [ToolRegistry.list_tools, ToolRegistry.applyOps, List.map_map,
      Function.comp] using this

/-- C9 counterexample: registering `"x"` under `document` and then
re-registering it under `search` leaves `"x"` in both per-category listings,
so it occurs twice across the per-category listings combined. -/
theorem registry_cross_category_duplicate :
    (("x") ∈ (ToolRegistry.list_tools (ToolRegistry.applyOps
      [.register ("x") ("") .document ("") 0 false,
       .register ("x") ("") .search ("") 1 false]) (some .document)).map Prod.fst) ∧
    (("x") ∈ (ToolRegistry.list_tools (ToolRegistry.applyOps
      [.register ("x") ("") .document ("") 0 false,
       .register ("x") ("") .search ("") 1 false]) (some .search)).map Prod.fst) ∧
    (((ToolRegistry.list_tools (ToolRegistry.applyOps
        [.register ("x") ("") .document ("") 0 false,
         .register ("x") ("") .search ("") 1 false]) (some .document)).map Prod.fst) ++
     ((ToolRegistry.list_tools (ToolRegistry.applyOps
        [.register ("x") ("") .document ("") 0 false,
         .register ("x") ("") .search ("") 1 false]) (some .search)).map Prod.fst)).count
      ("x") = 2 := by
  refine ⟨by decide, by decide, by decide⟩

theorem dropWhile_eq_self_of_clean (l : List Char) (h : ∀ c ∈ l, pyIsSpace c = false) :
    l.dropWhile pyIsSpace = l := by
  cases l with
  | nil => rfl
  | cons a t => simp [List.dropWhile_cons, h a (List.mem_cons_self a t)]

theorem pyStrip_eq_self_of_clean (l : List Char) (h : ∀ c ∈ l, pyIsSpace c = false) :
    pyStrip l = l := by
  unfold pyStrip
  rw [dropWhile_eq_self_of_clean l h,
    dropWhile_eq_self_of_clean l.reverse (fun c hc => h c (List.mem_reverse.mp hc)),
    List.reverse_reverse]

theorem pyNormalize_eq_self_of_clean (l : List Char)
    (h : ∀ c ∈ l, pyIsSpace c = false) : pyNormalize l = l := by
  unfold pyNormalize pyReplaceNl
  have hm : l.map (fun c => if c = '\n' then ' ' else c) = l := by
    conv_rhs => rw [← List.map_id l]
    refine List.map_congr_left (fun a ha => ?_)
    have hsp := h a ha
    have hne : a ≠ '\n' := by
      intro e
      subst e
      simp [pyIsSpace] at hsp
    simp [hne]
  rw [hm]
  exact pyStrip_eq_self_of_clean l h

theorem rfindDot_eq_none_of_clean (l : List Char) (h : ∀ c ∈ l, c ≠ '.') :
    rfindDot l = none := by
  unfold rfindDot
  have hnone : l.reverse.findIdx? (· = '.') = none := by
    rw [List.findIdx?_eq_none_iff]
    intro x hx
    simp [h x (List.mem_reverse.mp hx)]
  rw [hnone]

theorem pySlice_natCast (l : List Char) (k s : ℕ) :
    pySlice l (k : ℤ) ((k : ℤ) + (s : ℤ)) = (l.drop k).take s := by
  unfold pySlice pyIdx
  rw [if_neg (show ¬ ((k:ℤ) + (s:ℤ) < 0) by omega),
    if_neg (show ¬ ((k:ℤ) < 0) by omega)]
  have h1 : ((k:ℤ) + (s:ℤ)).toNat = k + s := by omega
  have h2 : ((k:ℤ)).toNat = k := by omega
  rw [h1, h2]
  rcases le_or_lt k l.length with hk | hk
  · rw [min_eq_left hk, List.drop_take]
    rw [List.take_eq_take]
    rw [List.length_drop]
    omega
  · rw [min_eq_right (le_of_lt hk)]
    rw [List.drop_eq_nil_of_le (le_of_lt hk),
      List.drop_eq_nil_of_le (by rw [List.length_take]; exact inf_le_right)]
    simp

theorem chunkAux_eq_simple (size overlap : ℕ) (text : List Char) (hov : overlap ≤ size)
    (hclean : ∀ c ∈ text, pyIsSpace c = false ∧ c ≠ '.') :
    ∀ fuel (k : ℕ), PDFProcessor.chunkAux size overlap text fuel (k : ℤ) =
      simpleChunks size overlap fuel (text.drop k) := by
  intro fuel
  induction fuel with
  | zero => intro k; rfl
  | succ n ih =>
    intro k
    by_cases hk : k < text.length
    · have hcond : ((k:ℤ) < (text.length : ℤ)) := by exact_mod_cast hk
      have hchunk : pySlice text (k:ℤ) ((k:ℤ) + (size:ℤ)) = (text.drop k).take size :=
        pySlice_natCast text k size
      have hcleanTake : ∀ c ∈ (text.drop k).take size, pyIsSpace c = false ∧ c ≠ '.' :=
        fun c hc => hclean c (List.mem_of_mem_drop (List.mem_of_mem_take hc))
      have hnone : (if (k:ℤ) + (size:ℤ) < (text.length:ℤ)
          then rfindDot (pySlice text (k:ℤ) ((k:ℤ) + (size:ℤ))) else none) = none := by
        split
        · rw [hchunk]
          exact rfindDot_eq_none_of_clean _ (fun c hc => (hcleanTake c hc).2)
        · rfl
      show PDFProcessor.chunkAux size overlap text (n+1) (k:ℤ) = _
      unfold PDFProcessor.chunkAux
      rw [if_pos hcond, hnone]
      show (PDFProcessor.chunkAux size overlap text n
          ((k:ℤ) + (size:ℤ) - (overlap:ℤ))).map
          (fun rest => pyStrip (pySlice text (k:ℤ) ((k:ℤ) + (size:ℤ))) :: rest) = _
      have hcast : (k:ℤ) + (size:ℤ) - (overlap:ℤ) = ((k + (size - overlap) : ℕ) : ℤ) := by
        omega
      rw [hcast, ih (k + (size - overlap)), hchunk,
        pyStrip_eq_self_of_clean _ (fun c hc => (hcleanTake c hc).1)]
      have hne : ¬ ((text.drop k).isEmpty = true) := by
        rw [List.isEmpty_iff]
        intro e
        rw [List.drop_eq_nil_iff] at e
        omega
      conv_rhs => rw [simpleChunks]
      rw [if_neg hne, ← List.drop_drop]
    · have hcond : ¬ ((k:ℤ) < (text.length : ℤ)) := by exact_mod_cast hk
      have hnil : text.drop k = [] := List.drop_eq_nil_of_le (by omega)
      show PDFProcessor.chunkAux size overlap text (n+1) (k:ℤ) = _
      unfold PDFProcessor.chunkAux
      rw [if_neg hcond, hnil]
      rfl

theorem simpleChunks_total (size overlap : ℕ) (hov : overlap < size) :
    ∀ n (s : List Char), s.length ≤ n →
      ∃ cs, simpleChunks size overlap (n+1) s = some cs := by
  intro n
  induction n with
  | zero =>
    intro s hs
    have hnil : s = [] := List.eq_nil_of_length_eq_zero (Nat.le_zero.mp hs)
    subst hnil
    exact ⟨[], rfl⟩
  | succ m ih =>
    intro s hs
    by_cases h : s.isEmpty
    · have hnil : s = [] := List.isEmpty_iff.mp h
      subst hnil
      exact ⟨[], rfl⟩
    · have hpos : 0 < s.length :=
        List.length_pos.mpr (fun e => h (by simp [e]))
      obtain ⟨cs', hcs'⟩ := ih (s.drop (size - overlap)) (by
        rw [List.length_drop]
        omega)
      refine ⟨s.take size :: cs', ?_⟩
      show simpleChunks size overlap (m+1+1) s = _
      unfold simpleChunks
      rw [if_neg h, hcs']
      rfl

theorem simpleChunks_spec (size overlap : ℕ) (hov : overlap < size) :
    ∀ fuel (s : List Char) cs, simpleChunks size overlap fuel s = some cs →
      reconstructChunks overlap cs = s ∧
      List.Chain' (fun a b => a.drop (size - overlap) = b.take overlap) cs ∧
      (cs = [] → s = []) ∧
      (∀ c cs', cs = c :: cs' → c = s.take size) := by
  intro fuel
  induction fuel with
  | zero =>
    intro s cs h
    exact absurd h (by simp [simpleChunks])
  | succ n ih =>
    intro s cs h
    by_cases hemp : s.isEmpty
    · have hs : s = [] := List.isEmpty_iff.mp hemp
      subst hs
      have hcs : cs = [] := by
        unfold simpleChunks at h
        simp at h
        exact h
      subst hcs
      exact ⟨rfl, List.chain'_nil, fun _ => rfl, fun c cs' hcc => by simp at hcc⟩
    · unfold simpleChunks at h
      rw [if_neg hemp] at h
      obtain ⟨rest, hrest, hcs⟩ := Option.map_eq_some'.mp h
      obtain ⟨ihrec, ihchain, ihnil, ihhead⟩ := ih _ _ hrest
      subst hcs
      refine ⟨?_, ?_, by simp, fun c cs' hcc => by injection hcc with h1 _; exact h1.symm⟩
      · cases rest with
        | nil =>
          have hdrop : s.drop (size - overlap) = [] := ihnil rfl
          rw [List.drop_eq_nil_iff] at hdrop
          show List.take size s ++ (List.map (List.drop overlap) ([] : List (List Char))).flatten = s
          simp only [List.map_nil, List.flatten_nil, List.append_nil]
          exact List.take_of_length_le (le_trans hdrop (Nat.sub_le size overlap))
        | cons r rs =>
          have hr : r = (s.drop (size - overlap)).take size := ihhead r rs rfl
          have hF : (rs.map (List.drop overlap)).flatten =
              (s.drop (size - overlap)).drop r.length := by
            unfold reconstructChunks at ihrec
            have h2 := congrArg (List.drop r.length) ihrec
            rw [List.drop_left] at h2
            exact h2
          show List.take size s ++ (List.map (List.drop overlap) (r :: rs)).flatten = s
          rw [List.map_cons, List.flatten_cons, hF, hr]
          rw [List.length_take]
          have hmin : (s.drop (size - overlap)).drop
              (size ⊓ (s.drop (size - overlap)).length) =
              (s.drop (size - overlap)).drop size := by
            rcases le_total size (s.drop (size - overlap)).length with hle2 | hle2
            · rw [min_eq_left hle2]
            · rw [min_eq_right hle2, List.drop_eq_nil_of_le hle2,
                List.drop_eq_nil_of_le (le_refl _)]
          rw [hmin, List.drop_take, List.drop_drop, List.drop_drop]
          have e1 : (size - overlap) + overlap = size := by omega
          have e2 : size - overlap + size = size + (size - overlap) := by omega
          rw [e1, e2, ← List.drop_drop, List.take_append_drop, List.take_append_drop]
      · cases rest with
        | nil => exact List.chain'_singleton _
        | cons r rs =>
          rw [List.chain'_cons]
          refine ⟨?_, ihchain⟩
          have hr : r = (s.drop (size - overlap)).take size := ihhead r rs rfl
          rw [hr, List.drop_take, List.take_take]
          congr 1
          omega

/-- C3 counterexample: on `"abcd efgh"` with size 5 and overlap 2
(overlap < size), the returned chunks are `["abcd", "d efg", "fgh"]`:
the per-chunk `strip()` removed the space from the first window, so the last
2 characters of `"abcd"` are not the first 2 characters of `"d efg"`, and
concatenating the chunks with the overlaps removed gives `"abcdefgh"`, not
the normalized input — a one-character gap. -/
theorem chunk_coverage_counterexample :
    PDFProcessor.chunk_text 5 2 10 (("abcd efgh").toList) =
      some [("abcd").toList, ("d efg").toList, ("fgh").toList] ∧
    reconstructChunks 2 [("abcd").toList, ("d efg").toList, ("fgh").toList] ≠
      pyNormalize (("abcd efgh").toList) ∧
    (("abcd").toList).drop ((("abcd").toList).length - 2) ≠
      (("d efg").toList).take 2 ∧
    ¬ List.Chain' (fun a b => a.drop (5 - 2) = b.take 2)
      [("abcd").toList, ("d efg").toList, ("fgh").toList] := by
  refine ⟨by decide, by decide, by decide, ?_⟩
  rw [List.chain'_cons]
  intro hch
  exact absurd hch.1 (by decide)

/-- C3 amended: for text free of whitespace and sentence terminators (where
normalization and per-chunk stripping are the identity), the loop terminates
and the returned chunks tile the normalized text: each chunk's region beyond
the first `size − overlap` characters is exactly the next chunk's first
`overlap` characters, and concatenating the chunks with the overlaps removed
reconstructs the normalized text with no gap.  On general text the per-chunk
`strip()` and the sentence-boundary cutback break this (see the
counterexample). -/
theorem chunk_coverage_clean (size overlap : ℕ) (text : List Char)
    (hov : overlap < size)
    (hclean : ∀ c ∈ text, pyIsSpace c = false ∧ c ≠ '.') :
    ∃ fuel cs, PDFProcessor.chunk_text size overlap fuel text = some cs ∧
      List.Chain' (fun a b => a.drop (size - overlap) = b.take overlap) cs ∧
      reconstructChunks overlap cs = pyNormalize text := by
  have hnorm : pyNormalize text = text :=
    pyNormalize_eq_self_of_clean text (fun c hc => (hclean c hc).1)
  obtain ⟨cs, hcs⟩ := simpleChunks_total size overlap hov text.length text (le_refl _)
  obtain ⟨hrec, hchain, -, -⟩ := simpleChunks_spec size overlap hov _ _ _ hcs
  refine ⟨text.length + 1, cs, ?_, hchain, ?_⟩
  · show PDFProcessor.chunkAux size overlap (pyNormalize text) (text.length + 1) 0 =
      some cs
    rw [hnorm]
    have h0 := chunkAux_eq_simple size overlap text (le_of_lt hov) hclean
      (text.length + 1) 0
    rw [List.drop_zero] at h0
    exact h0.trans hcs
  · rw [hnorm]
    exact hrec

/-- Witness for the amended C3 at `"abcdefgh"`, size 5, overlap 2. -/
theorem chunk_coverage_clean_witness :
    (2 < 5 ∧ ∀ c ∈ ("abcdefgh").toList, pyIsSpace c = false ∧ c ≠ '.') ∧
    (∃ fuel cs, PDFProcessor.chunk_text 5 2 fuel (("abcdefgh").toList) = some cs ∧
      List.Chain' (fun a b => a.drop (5 - 2) = b.take 2) cs ∧
      reconstructChunks 2 cs = pyNormalize (("abcdefgh").toList)) :=
  ⟨⟨by decide, by decide⟩,
   chunk_coverage_clean 5 2 (("abcdefgh").toList) (by decide) (by decide)⟩

end RagMcp

